import Mathlib

/-!
Verification of the tag output subsystem of a ctags-family tool.

The definitions below are a shallow embedding of `src/main/entry.c` (which
bundles the tag emission engine together with two generations of the field
registry, `field.c`).  Pure C functions become Lean functions over lists of
characters; the stateful cork queue and tag file become an explicit state
record; fallible operations return `Option`.  C strings are `List Char` or
`String`; `NULL` pointers for optional strings are `Option.none`.
-/

namespace Ctags

/-! ## Pattern builder (`appendInputLine`, `makePatternStringCommon`) -/

/-- CRETURN in the C source. -/
def CRETURN : Char := '\r'

/-- NEWLINE in the C source. -/
def NEWLINE : Char := '\n'

/-- BACKSLASH in the C source. -/
def BACKSLASH : Char := '\\'

/-- `Option.backward ? '?' : '/'` — the active search delimiter
(`searchChar` local of `makePatternStringCommon`). -/
def searchChar (backward : Bool) : Char := if backward then '?' else '/'

/-- The quoting condition inside the loop of `appendInputLine`:
`c == BACKSLASH || c == (Option.backward ? '?' : '/') ||
 (c == '$' && (next == NEWLINE || next == CRETURN))`.
`sc` is the active search delimiter and `next` is `*(p + 1)`
(`'\x00'` at the end of the string). -/
def escapesChar (sc c next : Char) : Bool :=
  c == BACKSLASH || c == sc || (c == '$' && (next == NEWLINE || next == CRETURN))

/-- The loop of `appendInputLine` (entry.c).  Walks the line with the running
emitted `length`; stops at a line end character (`omitted = false`) or once
`length >= Option.patternLengthLimit` (`omitted = true`); a quoted character
emits a backslash first (two characters, counted separately in C, here `+ 2`).
Returns the emitted characters, the final `length`, and `omitted`. -/
def appendInputLineFrom (limit : Nat) (sc : Char) : List Char → Nat → List Char × Nat × Bool
  | [], length => ([], length, false)
  | c :: rest, length =>
    if c == CRETURN || c == NEWLINE then ([], length, false)
    else if limit ≤ length then ([], length, true)
    else
      let next : Char := rest.headD '\x00'
      if escapesChar sc c next then
        let r := appendInputLineFrom limit sc rest (length + 2)
        (BACKSLASH :: c :: r.1, r.2.1, r.2.2)
      else
        let r := appendInputLineFrom limit sc rest (length + 1)
        (c :: r.1, r.2.1, r.2.2)

/-- `appendInputLine` with initial `length = 0`. -/
def appendInputLine (limit : Nat) (sc : Char) (line : List Char) : List Char × Nat × Bool :=
  appendInputLineFrom limit sc line 0

/-- `makePatternStringCommon` (entry.c), build path (the single-slot pattern
cache only replays a previously built pattern for the same file position, so
every pattern built from a source line is produced by this path).  The C code
reads `line [line_len - 1]`, so an empty line is undefined behaviour; the model
returns `none` for it.  `terminator` is `"$"` exactly when the line's last
character is a newline; it is appended only when `omitted` is false. -/
def makePatternString (backward : Bool) (limit : Nat) (line : List Char) :
    Option (List Char) :=
  if line.isEmpty then none
  else
    let sc := searchChar backward
    let terminator : List Char := if line.getLast? = some NEWLINE then ['$'] else []
    let r := appendInputLine limit sc line
    some (sc :: '^' :: (r.1 ++ (if r.2.2 then [] else terminator) ++ [sc]))

/-- The escaped content as claim C2 words it: characters emitted verbatim with
backslashes, the active delimiter and a `'$'` immediately before an end of
line backslash-escaped, output terminating at the first line feed or carriage
return. -/
def claimEscapeListC2 (sc : Char) : List Char → List Char
  | [] => []
  | c :: rest =>
    if c == CRETURN || c == NEWLINE then []
    else
      (if escapesChar sc c (rest.headD '\x00') then [BACKSLASH, c] else [c])
        ++ claimEscapeListC2 sc rest

/-- Claim C2 as stated: the pattern is the delimiter, `'^'`, then the escaped
line content; a trailing `'$'` anchor and the closing delimiter end the
pattern, and if the emitted length exceeds `patternLengthLimit` output stops
there and the `'$'` anchor is omitted. -/
def claimPatternC2 (backward : Bool) (limit : Nat) (line : List Char) : List Char :=
  let sc := searchChar backward
  let full := claimEscapeListC2 sc line
  if full.length ≤ limit then sc :: '^' :: (full ++ ['$', sc])
  else sc :: '^' :: (full.take limit ++ [sc])

/-- Emitted characters of the amended claim C2: each character contributes its
backslash escape and itself together, and emission stops before a character
once the accumulated emitted length has already reached the limit. -/
def amendedBodyC2 (limit : Nat) (sc : Char) : List Char → Nat → List Char
  | [], _ => []
  | c :: rest, acc =>
    if c == CRETURN || c == NEWLINE then []
    else if limit ≤ acc then []
    else
      let piece := if escapesChar sc c (rest.headD '\x00') then [BACKSLASH, c] else [c]
      piece ++ amendedBodyC2 limit sc rest (acc + piece.length)

/-- Truncation flag of the amended claim C2: true exactly when a character of
the content (before any line end) was dropped because the accumulated emitted
length had already reached the limit. -/
def amendedOmittedC2 (limit : Nat) (sc : Char) : List Char → Nat → Bool
  | [], _ => false
  | c :: rest, acc =>
    if c == CRETURN || c == NEWLINE then false
    else if limit ≤ acc then true
    else
      amendedOmittedC2 limit sc rest
        (acc + (if escapesChar sc c (rest.headD '\x00') then 2 else 1))

/-- Amended claim C2, as a pattern-shape function: delimiter, `'^'`, the body,
then a `'$'` anchor exactly when no truncation occurred and the source line's
final character is a line feed, then the closing delimiter. -/
def amendedPatternC2 (backward : Bool) (limit : Nat) (line : List Char) : List Char :=
  let sc := searchChar backward
  let body := amendedBodyC2 limit sc line 0
  let anchor : List Char :=
    if !amendedOmittedC2 limit sc line 0 && line.getLast? == some NEWLINE then ['$'] else []
  sc :: '^' :: (body ++ anchor ++ [sc])

example : makePatternString false 96 ['a', 'b', 'c'] = some ['/', '^', 'a', 'b', 'c', '/'] := by
  decide

example : claimPatternC2 false 96 ['a', 'b', 'c'] = ['/', '^', 'a', 'b', 'c', '$', '/'] := by
  decide

example : makePatternString false 3 ['a', 'b', '\\', '\n']
    = some ['/', '^', 'a', 'b', '\\', '\\', '$', '/'] := by decide

example : claimPatternC2 false 3 ['a', 'b', '\\', '\n'] = ['/', '^', 'a', 'b', '\\', '/'] := by
  decide

example : amendedPatternC2 false 96 ['a', 'b', 'c'] = ['/', '^', 'a', 'b', 'c', '/'] := by decide

example : amendedPatternC2 false 3 ['a', 'b', '\\', '\n']
    = ['/', '^', 'a', 'b', '\\', '\\', '$', '/'] := by decide

lemma appendInputLineFrom_eq_amended (limit : Nat) (sc : Char) :
    ∀ (l : List Char) (len : Nat),
      (appendInputLineFrom limit sc l len).1 = amendedBodyC2 limit sc l len ∧
      (appendInputLineFrom limit sc l len).2.2 = amendedOmittedC2 limit sc l len := by
  intro l
  induction l with
  | nil => intro len; simp [appendInputLineFrom, amendedBodyC2, amendedOmittedC2]
  | cons c rest ih =>
    intro len
    by_cases hEol : (c == CRETURN || c == NEWLINE) = true
    · simp [appendInputLineFrom, amendedBodyC2, amendedOmittedC2, hEol]
    · by_cases hLim : limit ≤ len
      · simp [appendInputLineFrom, amendedBodyC2, amendedOmittedC2, hEol, hLim]
      · by_cases hEsc : escapesChar sc c (rest.head?.getD '\x00') = true
        · simpa [appendInputLineFrom, amendedBodyC2, amendedOmittedC2, hEol, hLim, hEsc]
            using ih (len + 2)
        · simpa [appendInputLineFrom, amendedBodyC2, amendedOmittedC2, hEol, hLim, hEsc]
            using ih (len + 1)

/-- C2, counterexample.  The claim as stated fails on `makePatternStringCommon`
at two concrete inputs: for the line `"abc"` with no trailing line feed (a
final line of a file without a newline) the code emits `/^abc/` with no `'$'`
anchor although nothing was truncated, and for the line `"ab\\\n"` with
`patternLengthLimit = 3` the code emits the escape pair atomically, producing
`/^ab\\$/` of body length 4 with the anchor kept, while the claim predicts the
output to stop at the limit with the anchor omitted. -/
theorem ctags_c2_counterexample :
    makePatternString false 96 ['a', 'b', 'c']
        ≠ some (claimPatternC2 false 96 ['a', 'b', 'c'])
      ∧ makePatternString false 3 ['a', 'b', '\\', '\n']
        ≠ some (claimPatternC2 false 3 ['a', 'b', '\\', '\n']) := by
  decide

/-- C2 (amended): for every nonempty source line, the pattern built by
`makePatternStringCommon` is the active search delimiter followed by `'^'`,
then the line's characters emitted verbatim except that backslashes, the
active delimiter, and a `'$'` immediately before an end of line are
backslash-escaped (an escaped character contributes its backslash and itself
together), with output terminating at the first line feed or carriage return
and stopping before any character reached once the emitted length is at least
`patternLengthLimit`; a trailing `'$'` anchor is present exactly when no such
truncation occurred and the line's final character is a line feed, and the
closing delimiter ends the pattern. -/
theorem ctags_c2_pattern_shape (backward : Bool) (limit : Nat) (line : List Char)
    (h : line ≠ []) :
    makePatternString backward limit line = some (amendedPatternC2 backward limit line) := by
  have hne : line.isEmpty = false := by simpa using h
  obtain ⟨h1, h2⟩ := appendInputLineFrom_eq_amended limit (searchChar backward) line 0
  simp only [makePatternString, amendedPatternC2, appendInputLine, hne, Bool.false_eq_true,
    if_false, h1, h2]
  by_cases hom : amendedOmittedC2 limit (searchChar backward) line 0 = true
  · simp [hom]
  · by_cases hlast : line.getLast? = some NEWLINE
    · simp [hom, hlast]
    · simp [hom, hlast]

/-- C2, witness for `ctags_c2_pattern_shape` at the line `"int f;\n"` with the
default pattern length limit 96 and forward search. -/
theorem ctags_c2_pattern_shape_witness :
    makePatternString false 96 ['i', 'n', 't', ' ', 'f', ';', '\n']
      = some (amendedPatternC2 false 96 ['i', 'n', 't', ' ', 'f', ';', '\n']) :=
  ctags_c2_pattern_shape false 96 ['i', 'n', 't', ' ', 'f', ';', '\n'] (by decide)

/-! ## Tag entry data model (`tagEntryInfo`, entry.h as used by entry.c) -/

/-- A dereferenced `kindOption`.  `tagEntryInfo.kind` is a pointer in C; every
writer path dereferences it unconditionally (`tag->kind->name`,
`tag->kind->letter`), so the model represents the pointee directly. -/
structure KindInfo where
  letter : Char
  name : Option String
  deriving Repr, DecidableEq, Inhabited

/-- The `extensionFields` bundle of `tagEntryInfo`.  Optional C strings are
`Option String`; `scopeKind` is an optional `kindOption` pointer. -/
structure ExtensionFields where
  access : Option String
  implementation : Option String
  inheritance : Option String
  scopeKind : Option KindInfo
  scopeName : Option String
  scopeIndex : Nat
  signature : Option String
  typeRef0 : Option String
  typeRef1 : Option String
  roleIndex : Nat
  deriving Repr, DecidableEq, Inhabited

/-- `tagEntryInfo`, restricted to the members the verified code paths read. -/
structure TagEntryInfo where
  lineNumberEntry : Bool
  lineNumber : Nat
  language : Option String
  inputFileName : String
  name : String
  kind : KindInfo
  pattern : Option String
  placeholder : Bool
  isFileScope : Bool
  isFileEntry : Bool
  truncateLine : Bool
  extensionFields : ExtensionFields
  deriving Repr, DecidableEq, Inhabited

/-- The zeroed queue slot created by `corkTagFile` (`memset (queue, 0, ...)`):
every scalar 0 / FALSE, every string NULL.  The zeroed `kind` pointer is never
dereferenced because `getEntryInCorkQueue (0)` returns NULL. -/
def emptyTagEntryInfo : TagEntryInfo where
  lineNumberEntry := false
  lineNumber := 0
  language := none
  inputFileName := ""
  name := ""
  kind := { letter := '\x00', name := none }
  pattern := none
  placeholder := false
  isFileScope := false
  isFileEntry := false
  truncateLine := false
  extensionFields :=
    { access := none, implementation := none, inheritance := none, scopeKind := none
      scopeName := none, scopeIndex := 0, signature := none, typeRef0 := none
      typeRef1 := none, roleIndex := 0 }

/-! ## Extension fields of the extended ctags writer (`addExtensionFields`) -/

/-- Enabled flags of the field descriptors `addExtensionFields` consults
(`getFieldDesc (FIELD_X)->enabled` against the `fieldDescs` table of the
classic field registry). -/
structure FieldEnables where
  /-- FIELD_KIND_KEY, letter `z`. -/
  kindKey : Bool
  /-- FIELD_SCOPE_KEY, letter `Z`. -/
  scopeKey : Bool
  /-- FIELD_KIND_LONG, letter `K`. -/
  kindLong : Bool
  /-- FIELD_KIND, letter `k`. -/
  kind : Bool
  /-- FIELD_LINE_NUMBER, letter `n`. -/
  lineNumber : Bool
  /-- FIELD_LANGUAGE, letter `l`. -/
  language : Bool
  /-- FIELD_SCOPE, letter `s`. -/
  scope : Bool
  /-- FIELD_TYPE_REF, letter `t`. -/
  typeRef : Bool
  /-- FIELD_FILE_SCOPE, letter `f`. -/
  fileScope : Bool
  /-- FIELD_INHERITANCE, letter `i`. -/
  inheritance : Bool
  /-- FIELD_ACCESS, letter `a`. -/
  access : Bool
  /-- FIELD_IMPLEMENTATION, letter `m`. -/
  implementation : Bool
  /-- FIELD_SIGNATURE, letter `S`. -/
  signature : Bool
  /-- FIELD_ROLE, letter `r`. -/
  role : Bool
  deriving Repr, DecidableEq

/-- The eleven extension fields `addExtensionFields` can append after the
`;"` separator, one constructor per `fprintf` site, in no particular order
here (the emission order is the statement of claim C1). -/
inductive ExtFieldTag
  | kind | line | language | scope | typeref | fileScope
  | inheritance | access | implementation | signature | role
  deriving Repr, DecidableEq

/-- The C expression `tag->kind == '\0'` compares the `kind` POINTER with the
integer 0, i.e. tests it for NULL.  Every tag reaching `addExtensionFields`
has a non-NULL kind (the same `if` dereferences `tag->kind->name` first), so
the test is false. -/
def kindPointerIsNull (_tag : TagEntryInfo) : Bool := false

/-- First branch of the kind `if` in `addExtensionFields`:
`tag->kind->name != NULL && (FIELD_KIND_LONG enabled ||
 (FIELD_KIND enabled && tag->kind == '\0'))` — emits the kind long name. -/
def kindCondLong (cfg : FieldEnables) (tag : TagEntryInfo) : Bool :=
  tag.kind.name.isSome && (cfg.kindLong || (cfg.kind && kindPointerIsNull tag))

/-- Second branch of the kind `if`: `tag->kind != '\0' && (FIELD_KIND enabled
|| (FIELD_KIND_LONG enabled && tag->kind->name == NULL))` — emits the kind
letter; reached only when the first branch did not fire. -/
def kindCondLetter (cfg : FieldEnables) (tag : TagEntryInfo) : Bool :=
  !kindCondLong cfg tag
    && (!kindPointerIsNull tag && (cfg.kind || (cfg.kindLong && tag.kind.name.isNone)))

/-- Guard of the scope field in `addExtensionFields`: the descriptor is
enabled and either both `scopeKind` and `scopeName` are set, or
`scopeIndex != SCOPE_NIL` and the cork queue is non-empty. -/
def scopeFieldCond (cfg : FieldEnables) (corkCount : Nat) (tag : TagEntryInfo) : Bool :=
  cfg.scope
    && ((tag.extensionFields.scopeKind.isSome && tag.extensionFields.scopeName.isSome)
        || (tag.extensionFields.scopeIndex != 0 && corkCount > 0))

/-- The guard of each `fprintf` site of `addExtensionFields`, by field:
descriptor enabled, and the value available on the tag (string non-NULL,
`isFileScope` set, `roleIndex` not the definition role, ...). -/
def extensionFieldCond (cfg : FieldEnables) (corkCount : Nat) (tag : TagEntryInfo) :
    ExtFieldTag → Bool
  | .kind => kindCondLong cfg tag || kindCondLetter cfg tag
  | .line => cfg.lineNumber
  | .language => cfg.language && tag.language.isSome
  | .scope => scopeFieldCond cfg corkCount tag
  | .typeref =>
      cfg.typeRef && tag.extensionFields.typeRef0.isSome && tag.extensionFields.typeRef1.isSome
  | .fileScope => cfg.fileScope && tag.isFileScope
  | .inheritance => cfg.inheritance && tag.extensionFields.inheritance.isSome
  | .access => cfg.access && tag.extensionFields.access.isSome
  | .implementation => cfg.implementation && tag.extensionFields.implementation.isSome
  | .signature => cfg.signature && tag.extensionFields.signature.isSome
  | .role => cfg.role && tag.extensionFields.roleIndex != 0

/-- `addExtensionFields` (entry.c), abstracted to the sequence of extension
fields it emits after the `;"` separator: one guarded singleton per `fprintf`
site, concatenated in the source's textual order. -/
def addExtensionFieldsList (cfg : FieldEnables) (corkCount : Nat) (tag : TagEntryInfo) :
    List ExtFieldTag :=
  (if kindCondLong cfg tag || kindCondLetter cfg tag then [ExtFieldTag.kind] else [])
    ++ ((if cfg.lineNumber then [ExtFieldTag.line] else [])
    ++ ((if cfg.language && tag.language.isSome then [ExtFieldTag.language] else [])
    ++ ((if scopeFieldCond cfg corkCount tag then [ExtFieldTag.scope] else [])
    ++ ((if cfg.typeRef && tag.extensionFields.typeRef0.isSome
          && tag.extensionFields.typeRef1.isSome then [ExtFieldTag.typeref] else [])
    ++ ((if cfg.fileScope && tag.isFileScope then [ExtFieldTag.fileScope] else [])
    ++ ((if cfg.inheritance && tag.extensionFields.inheritance.isSome
          then [ExtFieldTag.inheritance] else [])
    ++ ((if cfg.access && tag.extensionFields.access.isSome then [ExtFieldTag.access] else [])
    ++ ((if cfg.implementation && tag.extensionFields.implementation.isSome
          then [ExtFieldTag.implementation] else [])
    ++ ((if cfg.signature && tag.extensionFields.signature.isSome
          then [ExtFieldTag.signature] else [])
    ++ (if cfg.role && tag.extensionFields.roleIndex != 0
          then [ExtFieldTag.role] else []))))))))))

/-- The fixed order claim C1 states: kind, line, language, scope, typeref,
fileScope marker, inheritance, access, implementation, signature, role. -/
def extensionFieldOrder : List ExtFieldTag :=
  [.kind, .line, .language, .scope, .typeref, .fileScope,
   .inheritance, .access, .implementation, .signature, .role]

/-- `includeExtensionFlags()` — `Option.tagFileFormat > 1`. -/
def includeExtensionFlags (tagFileFormat : Nat) : Bool := tagFileFormat > 1

/-- `writeCtagsEntry`, abstracted to the extension-field suffix it emits:
the `addExtensionFields` sequence when `includeExtensionFlags ()` holds,
nothing otherwise. -/
def writeCtagsEntryExtensionFields (tagFileFormat : Nat) (cfg : FieldEnables)
    (corkCount : Nat) (tag : TagEntryInfo) : List ExtFieldTag :=
  if includeExtensionFlags tagFileFormat then addExtensionFieldsList cfg corkCount tag else []

lemma cond_singleton_append {α : Type} (c : Bool) (a : α) (l : List α) :
    (if c then [a] else []) ++ l = if c then a :: l else l := by
  cases c <;> simp

/-- C1: with the extended ctags writer selected (`tagFileFormat = 2`), the
extension-field suffix after the `;"` separator lists the fields in exactly
the fixed order kind, line, language, scope, typeref, fileScope marker,
inheritance, access, implementation, signature, role — it is the canonical
order filtered by the per-field guard — and each field appears in the suffix
exactly when its descriptor is enabled and its value is available on the tag
(`extensionFieldCond`). -/
theorem ctags_c1_extension_field_order (cfg : FieldEnables) (corkCount : Nat)
    (tag : TagEntryInfo) :
    writeCtagsEntryExtensionFields 2 cfg corkCount tag
      = extensionFieldOrder.filter (extensionFieldCond cfg corkCount tag) := by
  simp only [writeCtagsEntryExtensionFields, includeExtensionFlags, addExtensionFieldsList,
    extensionFieldOrder, List.filter_cons, List.filter_nil, extensionFieldCond,
    cond_singleton_append]
  rfl

/-! ## Cork queue and tag writing state (`TagFile`, entry.c) -/

/-- The mutable state the entry-management functions touch: the cork depth
counter `TagFile.cork`, the cork queue (`count` is the list length; the
`length`/capacity field and reallocation of `queueTagEntry` preserve contents
and are absorbed by the list), the sequence of non-placeholder entries handed
to the active writer in order, and `TagFile.numTags.added`. -/
structure TagFileState where
  cork : Nat
  corkQueue : List TagEntryInfo
  written : List TagEntryInfo
  numTagsAdded : Nat
  deriving Repr, DecidableEq

/-- `writeTagEntry` (entry.c): returns immediately on a placeholder tag;
otherwise formats the tag with the writer selected by the options (recorded
here as the entry itself, appended to `written`) and bumps
`TagFile.numTags.added`. -/
def writeTagEntry (s : TagFileState) (tag : TagEntryInfo) : TagFileState :=
  if tag.placeholder then s
  else { s with written := s.written ++ [tag], numTagsAdded := s.numTagsAdded + 1 }

/-- `recordTagEntryInQueue` (entry.c): the deep copy placed in a queue slot.
String duplication is the identity on values; the one value change is that a
tag with no pattern and `lineNumberEntry` unset gets a pattern built by
`makePatternString` (abstracted as the environment's `patternOf` callback,
which reads the input line for the tag). -/
def recordTagEntryInQueue (patternOf : TagEntryInfo → String) (tag : TagEntryInfo) :
    TagEntryInfo :=
  if tag.pattern.isSome then tag
  else if !tag.lineNumberEntry then { tag with pattern := some (patternOf tag) }
  else tag

/-- `queueTagEntry` (entry.c): grows the queue if needed (capacity doubling,
invisible at the list level), records the copy at index `i = count`,
increments `count`, and returns `i`. -/
def queueTagEntry (patternOf : TagEntryInfo → String) (s : TagFileState)
    (tag : TagEntryInfo) : Nat × TagFileState :=
  (s.corkQueue.length,
   { s with corkQueue := s.corkQueue ++ [recordTagEntryInQueue patternOf tag] })

/-- `corkTagFile` (entry.c): increments the cork counter; on the 0 → 1 edge
allocates a fresh queue holding the single zeroed sentinel slot at index 0. -/
def corkTagFile (s : TagFileState) : TagFileState :=
  if s.cork + 1 = 1 then { s with cork := s.cork + 1, corkQueue := [emptyTagEntryInfo] }
  else { s with cork := s.cork + 1 }

/-- `uncorkTagFile` (entry.c): decrements the cork counter and returns at once
while it stays positive; otherwise writes the queued entries at indices
1 .. count-1 in order via `writeTagEntry`, then frees every owned string and
the queue array (the queue becomes empty, `count = 0`). -/
def uncorkTagFile (s : TagFileState) : TagFileState :=
  let s1 := { s with cork := s.cork - 1 }
  if s1.cork > 0 then s1
  else
    let flushed := (s1.corkQueue.drop 1).foldl writeTagEntry s1
    { flushed with corkQueue := [] }

/-- `getEntryInCorkQueue` (entry.c): a queue index dereferences to its slot
exactly when `SCOPE_NIL < n && n < count`; the sentinel index 0 and any index
at or beyond `count` give NULL. -/
def getEntryInCorkQueue (queue : List TagEntryInfo) (n : Nat) : Option TagEntryInfo :=
  if 0 < n ∧ n < queue.length then queue.get? n else none

/-- `countEntryInCorkQueue` (entry.c). -/
def countEntryInCorkQueue (s : TagFileState) : Nat := s.corkQueue.length

/-- `makeTagEntry` (entry.c): the single emission entry point.  `allowNull`
is the external `doesInputLanguageAllowNullTag ()` predicate.  Returns the
value `r` (`SCOPE_NIL = 0` unless the tag was queued), the new state, and
whether the null-tag warning was issued. -/
def makeTagEntry (allowNull : Bool) (patternOf : TagEntryInfo → String)
    (s : TagFileState) (tag : TagEntryInfo) : Nat × TagFileState × Bool :=
  if tag.name == "" && !tag.placeholder then
    (0, s, !allowNull)
  else if s.cork > 0 then
    let q := queueTagEntry patternOf s tag
    (q.1, q.2, false)
  else
    (0, writeTagEntry s tag, false)

/-- Folding a list of tag submissions through `makeTagEntry`, keeping only the
state — the shape of a parser emitting a sequence of tags. -/
def submitAll (allowNull : Bool) (patternOf : TagEntryInfo → String)
    (s : TagFileState) (tags : List TagEntryInfo) : TagFileState :=
  tags.foldl (fun st t => (makeTagEntry allowNull patternOf st t).2.1) s

/-- A tag `makeTagEntry` does not drop: name non-empty or placeholder set. -/
def submittable (tag : TagEntryInfo) : Bool := !(tag.name == "" && !tag.placeholder)

lemma foldl_writeTagEntry (l : List TagEntryInfo) : ∀ s : TagFileState,
    (l.foldl writeTagEntry s).written = s.written ++ l.filter (fun e => !e.placeholder)
      ∧ (l.foldl writeTagEntry s).cork = s.cork
      ∧ (l.foldl writeTagEntry s).corkQueue = s.corkQueue := by
  induction l with
  | nil => intro s; simp
  | cons e t ih =>
    intro s
    cases he : e.placeholder
    · obtain ⟨h1, h2, h3⟩ := ih (writeTagEntry s e)
      refine ⟨?_, ?_, ?_⟩
      · rw [List.foldl_cons, h1]; simp [writeTagEntry, he]
      · rw [List.foldl_cons, h2]; simp [writeTagEntry, he]
      · rw [List.foldl_cons, h3]; simp [writeTagEntry, he]
    · obtain ⟨h1, h2, h3⟩ := ih s
      refine ⟨?_, ?_, ?_⟩
      · rw [List.foldl_cons]
        simpa [writeTagEntry, he] using h1
      · rw [List.foldl_cons]
        simpa [writeTagEntry, he] using h2
      · rw [List.foldl_cons]
        simpa [writeTagEntry, he] using h3

lemma makeTagEntry_step_corked (aN : Bool) (pO : TagEntryInfo → String)
    (s : TagFileState) (tag : TagEntryInfo) (h : 1 ≤ s.cork) :
    (makeTagEntry aN pO s tag).2.1
      = { s with corkQueue := s.corkQueue
            ++ (if submittable tag then [recordTagEntryInQueue pO tag] else []) } := by
  have hc : s.cork > 0 := h
  cases hdrop : (tag.name == "" && !tag.placeholder)
  · simp [makeTagEntry, hdrop, hc, queueTagEntry, submittable]
  · simp [makeTagEntry, hdrop, submittable]

lemma submitAll_corked (aN : Bool) (pO : TagEntryInfo → String) :
    ∀ (tags : List TagEntryInfo) (s : TagFileState), 1 ≤ s.cork →
      submitAll aN pO s tags
        = { s with corkQueue := s.corkQueue
              ++ (tags.filter submittable).map (recordTagEntryInQueue pO) } := by
  intro tags
  induction tags with
  | nil => intro s _; simp [submitAll]
  | cons t ts ih =>
    intro s h
    have hstep := makeTagEntry_step_corked aN pO s t h
    have : submitAll aN pO s (t :: ts)
        = submitAll aN pO ((makeTagEntry aN pO s t).2.1) ts := by
      simp [submitAll, List.foldl_cons]
    rw [this, hstep]
    cases hsub : submittable t
    · simpa [hsub] using ih { s with corkQueue := s.corkQueue ++ [] } (by simpa using h)
    · simpa [hsub] using
        ih { s with corkQueue := s.corkQueue ++ [recordTagEntryInQueue pO t] }
          (by simpa using h)

/-- C3: cork and uncork nest as a counter — an uncork that leaves the depth
above zero changes nothing but the counter; the uncork that brings the depth
to zero hands the queued entries at indices 1 .. count-1 to the writer in
exactly the order in which they sit in the queue (placeholders skipped by
`writeTagEntry` itself) and then frees the queue; and while a session is
open, submissions are only buffered — nothing is written — and they are
queued in submission order. -/
theorem ctags_c3_cork_uncork :
    (∀ s : TagFileState, 2 ≤ s.cork → uncorkTagFile s = { s with cork := s.cork - 1 })
  ∧ (∀ s : TagFileState, s.cork = 1 →
      (uncorkTagFile s).written
          = s.written ++ (s.corkQueue.drop 1).filter (fun e => !e.placeholder)
        ∧ (uncorkTagFile s).corkQueue = [] ∧ (uncorkTagFile s).cork = 0)
  ∧ (∀ (allowNull : Bool) (patternOf : TagEntryInfo → String) (s : TagFileState)
        (tags : List TagEntryInfo), 1 ≤ s.cork →
      (submitAll allowNull patternOf s tags).written = s.written
        ∧ (submitAll allowNull patternOf s tags).corkQueue
            = s.corkQueue ++ (tags.filter submittable).map (recordTagEntryInQueue patternOf)) := by
  refine ⟨?_, ?_, ?_⟩
  · intro s h
    have h1 : s.cork - 1 > 0 := by omega
    simp [uncorkTagFile, h1]
  · intro s h
    have h1 : ¬ (s.cork - 1 > 0) := by omega
    obtain ⟨hw, hc, hq⟩ :=
      foldl_writeTagEntry (({ s with cork := s.cork - 1 } : TagFileState).corkQueue.drop 1)
        { s with cork := s.cork - 1 }
    simp only [uncorkTagFile, h1, if_false]
    refine ⟨by simpa using hw, by simp, by simpa [h] using hc⟩
  · intro aN pO s tags h
    rw [submitAll_corked aN pO tags s h]
    simp

/-- C3, witness for `ctags_c3_cork_uncork`: with cork depth 2 an uncork only
decrements; with depth 1 it flushes the two queued entries in order and frees
the queue; submitting two tags inside a session queues both in order. -/
theorem ctags_c3_cork_uncork_witness :
    (uncorkTagFile
        { cork := 2,
          corkQueue := [emptyTagEntryInfo, { emptyTagEntryInfo with name := "a" }],
          written := [], numTagsAdded := 0 }
      = { cork := 1,
          corkQueue := [emptyTagEntryInfo, { emptyTagEntryInfo with name := "a" }],
          written := [], numTagsAdded := 0 })
  ∧ ((uncorkTagFile
        { cork := 1,
          corkQueue := [emptyTagEntryInfo, { emptyTagEntryInfo with name := "a" },
            { emptyTagEntryInfo with name := "b" }],
          written := [], numTagsAdded := 0 }).written
      = [{ emptyTagEntryInfo with name := "a" }, { emptyTagEntryInfo with name := "b" }])
  ∧ ((submitAll true (fun _ => "p")
        { cork := 1, corkQueue := [emptyTagEntryInfo], written := [], numTagsAdded := 0 }
        [{ emptyTagEntryInfo with name := "a", pattern := some "q" },
         { emptyTagEntryInfo with name := "b", pattern := some "q" }]).corkQueue
      = [emptyTagEntryInfo, { emptyTagEntryInfo with name := "a", pattern := some "q" },
         { emptyTagEntryInfo with name := "b", pattern := some "q" }]) := by
  refine ⟨?_, ?_, ?_⟩
  · exact ctags_c3_cork_uncork.1 _ (by decide)
  · rw [(ctags_c3_cork_uncork.2.1 _ (by decide)).1]; decide
  · rw [(ctags_c3_cork_uncork.2.2 true (fun _ => "p") _ _ (by decide)).2]; decide

/-- C5: a tag whose name is the empty string and whose placeholder flag is
unset is neither written nor queued by `makeTagEntry`; the function returns
`SCOPE_NIL = 0` and the state is unchanged, and the null-tag warning is
issued exactly when the input language does not allow null tags. -/
theorem ctags_c5_null_tag (allowNull : Bool) (patternOf : TagEntryInfo → String)
    (s : TagFileState) (tag : TagEntryInfo)
    (hname : tag.name = "") (hph : tag.placeholder = false) :
    makeTagEntry allowNull patternOf s tag = (0, s, !allowNull) := by
  simp [makeTagEntry, hname, hph]

/-- C5, witness for `ctags_c5_null_tag` at a concrete empty-name tag, in both
language policies. -/
theorem ctags_c5_null_tag_witness :
    makeTagEntry false (fun _ => "p")
        { cork := 1, corkQueue := [emptyTagEntryInfo], written := [], numTagsAdded := 0 }
        emptyTagEntryInfo
      = (0, { cork := 1, corkQueue := [emptyTagEntryInfo], written := [], numTagsAdded := 0 },
         true)
  ∧ makeTagEntry true (fun _ => "p")
        { cork := 0, corkQueue := [], written := [], numTagsAdded := 0 }
        emptyTagEntryInfo
      = (0, { cork := 0, corkQueue := [], written := [], numTagsAdded := 0 }, false) :=
  ⟨ctags_c5_null_tag false (fun _ => "p") _ _ (by decide) (by decide),
   ctags_c5_null_tag true (fun _ => "p") _ _ (by decide) (by decide)⟩

lemma writeTagEntry_corkQueue (s : TagFileState) (tag : TagEntryInfo) :
    (writeTagEntry s tag).corkQueue = s.corkQueue := by
  unfold writeTagEntry
  split <;> rfl

lemma makeTagEntry_queue_extends (aN : Bool) (pO : TagEntryInfo → String)
    (s : TagFileState) (tag : TagEntryInfo) :
    ∃ ext, (makeTagEntry aN pO s tag).2.1.corkQueue = s.corkQueue ++ ext := by
  by_cases h1 : (tag.name == "" && !tag.placeholder) = true
  · exact ⟨[], by simp [makeTagEntry, h1]⟩
  · by_cases h2 : s.cork > 0
    · exact ⟨[recordTagEntryInQueue pO tag], by simp [makeTagEntry, h1, h2, queueTagEntry]⟩
    · exact ⟨[], by simp [makeTagEntry, h1, h2, writeTagEntry_corkQueue]⟩

lemma getEntryInCorkQueue_append (q ext : List TagEntryInfo) (i : Nat) (e : TagEntryInfo)
    (h : getEntryInCorkQueue q i = some e) :
    getEntryInCorkQueue (q ++ ext) i = some e := by
  unfold getEntryInCorkQueue at h ⊢
  by_cases hc : 0 < i ∧ i < q.length
  · have hc2 : 0 < i ∧ i < (q ++ ext).length := by
      refine ⟨hc.1, ?_⟩
      simp only [List.length_append]
      omega
    rw [if_pos hc2, List.get?_append hc.2]
    rw [if_pos hc] at h
    exact h
  · rw [if_neg hc] at h
    exact absurd h (by simp)

lemma submitAll_preserves_entry (aN : Bool) (pO : TagEntryInfo → String) :
    ∀ (tags : List TagEntryInfo) (s : TagFileState) (i : Nat) (e : TagEntryInfo),
      getEntryInCorkQueue s.corkQueue i = some e →
      getEntryInCorkQueue (submitAll aN pO s tags).corkQueue i = some e := by
  intro tags
  induction tags with
  | nil => intro s i e h; simpa [submitAll] using h
  | cons t ts ih =>
    intro s i e h
    obtain ⟨ext, hext⟩ := makeTagEntry_queue_extends aN pO s t
    have hfold : submitAll aN pO s (t :: ts)
        = submitAll aN pO ((makeTagEntry aN pO s t).2.1) ts := by
      simp [submitAll, List.foldl_cons]
    rw [hfold]
    refine ih _ i e ?_
    rw [hext]
    exact getEntryInCorkQueue_append _ _ _ _ h

/-- C9: within a cork session, queued tags receive consecutive indices
starting at 1 — `makeTagEntry` returns the queue count before insertion (the
index-0 sentinel included), the count grows by exactly one per queued tag,
the returned index `i` satisfies `0 < i < count` and dereferences through
`getEntryInCorkQueue` to the tag's stored copy, it keeps doing so after any
further submissions of the session, `getEntryInCorkQueue` returns NULL for 0
and for any index at or beyond the count, and a fresh cork session starts
with count 1. -/
theorem ctags_c9_cork_indices :
    (∀ (aN : Bool) (pO : TagEntryInfo → String) (s : TagFileState) (tag : TagEntryInfo),
        1 ≤ s.cork → 1 ≤ s.corkQueue.length → submittable tag = true →
        (makeTagEntry aN pO s tag).1 = s.corkQueue.length
          ∧ (makeTagEntry aN pO s tag).2.1.corkQueue.length = s.corkQueue.length + 1
          ∧ 0 < (makeTagEntry aN pO s tag).1
          ∧ (makeTagEntry aN pO s tag).1 < (makeTagEntry aN pO s tag).2.1.corkQueue.length
          ∧ getEntryInCorkQueue (makeTagEntry aN pO s tag).2.1.corkQueue
              (makeTagEntry aN pO s tag).1 = some (recordTagEntryInQueue pO tag))
  ∧ (∀ queue : List TagEntryInfo, getEntryInCorkQueue queue 0 = none)
  ∧ (∀ (queue : List TagEntryInfo) (n : Nat), queue.length ≤ n →
        getEntryInCorkQueue queue n = none)
  ∧ (∀ (aN : Bool) (pO : TagEntryInfo → String) (s : TagFileState)
        (tags : List TagEntryInfo) (i : Nat) (e : TagEntryInfo),
        getEntryInCorkQueue s.corkQueue i = some e →
        getEntryInCorkQueue (submitAll aN pO s tags).corkQueue i = some e)
  ∧ (∀ s : TagFileState, s.cork = 0 →
        (corkTagFile s).corkQueue.length = 1 ∧ (corkTagFile s).cork = 1) := by
  refine ⟨?_, ?_, ?_, fun aN pO s tags i e h => submitAll_preserves_entry aN pO tags s i e h,
    ?_⟩
  · intro aN pO s tag hcork hlen hsub
    have hB : (tag.name == "" && !tag.placeholder) = false := by
      cases hX : (tag.name == "" && !tag.placeholder)
      · rfl
      · unfold submittable at hsub
        rw [hX] at hsub
        exact absurd hsub (by decide)
    have hc : s.cork > 0 := hcork
    have hq : (makeTagEntry aN pO s tag)
        = (s.corkQueue.length,
           { s with corkQueue := s.corkQueue ++ [recordTagEntryInQueue pO tag] }, false) := by
      simp [makeTagEntry, hB, hc, queueTagEntry]
    rw [hq]
    refine ⟨rfl, by simp, hlen, by simp, ?_⟩
    unfold getEntryInCorkQueue
    have hcond : 0 < s.corkQueue.length
        ∧ s.corkQueue.length
            < (({ s with corkQueue := s.corkQueue ++ [recordTagEntryInQueue pO tag] } :
                TagFileState)).corkQueue.length := by
      constructor
      · omega
      · simp
    rw [if_pos hcond]
    exact List.get?_concat_length _ _
  · intro queue
    simp [getEntryInCorkQueue]
  · intro queue n h
    have : ¬ (0 < n ∧ n < queue.length) := by omega
    simp [getEntryInCorkQueue, this]
  · intro s h
    simp [corkTagFile, h]

/-- C9, witness for `ctags_c9_cork_indices`: in a fresh session the first
submission returns index 1, the count becomes 2, and index 1 dereferences to
the stored copy. -/
theorem ctags_c9_cork_indices_witness :
    (makeTagEntry true (fun _ => "p")
        { cork := 1, corkQueue := [emptyTagEntryInfo], written := [], numTagsAdded := 0 }
        { emptyTagEntryInfo with name := "a", pattern := some "q" }).1 = 1
  ∧ getEntryInCorkQueue
      (makeTagEntry true (fun _ => "p")
        { cork := 1, corkQueue := [emptyTagEntryInfo], written := [], numTagsAdded := 0 }
        { emptyTagEntryInfo with name := "a", pattern := some "q" }).2.1.corkQueue 1
      = some (recordTagEntryInQueue (fun _ => "p")
          { emptyTagEntryInfo with name := "a", pattern := some "q" }) := by
  obtain ⟨h1, _, _, _, h5⟩ :=
    ctags_c9_cork_indices.1 true (fun _ => "p")
      { cork := 1, corkQueue := [emptyTagEntryInfo], written := [], numTagsAdded := 0 }
      { emptyTagEntryInfo with name := "a", pattern := some "q" }
      (by decide) (by decide) (by decide)
  refine ⟨by simpa using h1, ?_⟩
  have h1' : (makeTagEntry true (fun _ => "p")
      { cork := 1, corkQueue := [emptyTagEntryInfo], written := [], numTagsAdded := 0 }
      { emptyTagEntryInfo with name := "a", pattern := some "q" }).1 = 1 := by simpa using h1
  rw [← h1']
  exact h5

/-! ## Field registry (`fieldObject`, the multi-writer field.c) -/

/-- A registered field: the `fieldDefinition` members `enableField` and
`isFieldEnabled` read (`letter`, `name`, `enabled`) together with the
`fieldObject.fixed` bit ("fields which cannot be disabled"). -/
structure FieldObject where
  letter : Option Char
  name : Option String
  enabled : Bool
  fixed : Bool
  deriving Repr, DecidableEq

/-- The registry seeded by `initFieldObjects`: `fieldDefinitionsFixed` (the
three fixed fields, `fixed = 1`), then `fieldDefinitionsExuberant`, then
`fieldDefinitionsUniversal`, with each definition's initial `enabled` flag.
`FieldId`s are list positions. -/
def initFieldObjects : List FieldObject :=
  [⟨some 'N', some "name", true, true⟩,
   ⟨some 'F', some "input", true, true⟩,
   ⟨some 'P', some "pattern", true, true⟩,
   ⟨some 'C', some "compact", false, false⟩,
   ⟨some 'a', some "access", false, false⟩,
   ⟨some 'f', some "file", true, false⟩,
   ⟨some 'i', some "inherits", false, false⟩,
   ⟨some 'K', none, false, false⟩,
   ⟨some 'k', none, true, false⟩,
   ⟨some 'l', some "language", false, false⟩,
   ⟨some 'm', some "implementation", false, false⟩,
   ⟨some 'n', some "line", false, false⟩,
   ⟨some 'S', some "signature", false, false⟩,
   ⟨some 's', none, true, false⟩,
   ⟨some 't', some "typeref", true, false⟩,
   ⟨some 'z', some "kind", false, false⟩,
   ⟨some 'r', some "role", false, false⟩,
   ⟨some 'R', none, false, false⟩,
   ⟨some 'Z', some "scope", false, false⟩,
   ⟨some 'E', some "extras", false, false⟩,
   ⟨some 'x', some "xpath", false, false⟩,
   ⟨some 'p', some "scopeKind", false, false⟩,
   ⟨some 'e', some "end", false, false⟩]

/-- `isFieldEnabled` (field.c): `getFieldObject (type)->def->enabled`.
`getFieldObject` asserts `0 <= type < fieldObjectUsed`; an out-of-range id
yields `false` in the model. -/
def isFieldEnabled (reg : List FieldObject) (type : Nat) : Bool :=
  ((reg.get? type).map (fun o => o.enabled)).getD false

/-- `isFieldFixed` (field.c). -/
def isFieldFixed (reg : List FieldObject) (type : Nat) : Bool :=
  ((reg.get? type).map (fun o => o.fixed)).getD false

/-- `enableField` (field.c): captures `old = def->enabled`; for a fixed field
it changes nothing and emits the "Cannot disable fixed field" warning exactly
when asked to disable with `warnIfFixedField` set; otherwise it stores
`state`.  Returns `(old, new registry, warning issued)`. -/
def enableField (reg : List FieldObject) (type : Nat) (state warnIfFixedField : Bool) :
    Bool × List FieldObject × Bool :=
  match reg.get? type with
  | none => (false, reg, false)
  | some fobj =>
    if fobj.fixed then
      (fobj.enabled, reg, !state && warnIfFixedField)
    else
      (fobj.enabled, reg.set type { fobj with enabled := state }, false)

/-- A sequence of `enableField` calls `(type, state, warnIfFixedField)`,
applied in order. -/
def applyEnableOps (reg : List FieldObject) (ops : List (Nat × Bool × Bool)) :
    List FieldObject :=
  ops.foldl (fun r op => (enableField r op.1 op.2.1 op.2.2).2.1) reg

lemma enableField_preserves_fixed_entry (reg : List FieldObject) (u : Nat)
    (st w : Bool) (t : Nat) (o : FieldObject)
    (hget : reg.get? t = some o) (hfix : o.fixed = true) :
    ((enableField reg u st w).2.1).get? t = some o := by
  unfold enableField
  match hu : reg.get? u with
  | none => exact hget
  | some f =>
    by_cases hf : f.fixed = true
    · simp only [hf, if_true]
      exact hget
    · simp only [hf, if_false, Bool.false_eq_true]
      by_cases hut : u = t
      · subst hut
        rw [hu] at hget
        cases hget
        exact absurd hfix hf
      · rw [List.get?_set_ne _ _ hut]
        exact hget

lemma applyEnableOps_preserves_fixed_entry :
    ∀ (ops : List (Nat × Bool × Bool)) (reg : List FieldObject) (t : Nat) (o : FieldObject),
      reg.get? t = some o → o.fixed = true →
      (applyEnableOps reg ops).get? t = some o := by
  intro ops
  induction ops with
  | nil => intro reg t o h _; simpa [applyEnableOps] using h
  | cons op rest ih =>
    intro reg t o h hfix
    have hstep := enableField_preserves_fixed_entry reg op.1 op.2.1 op.2.2 t o h hfix
    have : applyEnableOps reg (op :: rest)
        = applyEnableOps ((enableField reg op.1 op.2.1 op.2.2).2.1) rest := by
      simp [applyEnableOps, List.foldl_cons]
    rw [this]
    exact ih _ t o hstep hfix

lemma initFieldObjects_fixed_enabled :
    ∀ o ∈ initFieldObjects, o.fixed = true → o.enabled = true := by
  decide

/-- C7: `enableField` returns the field's enabled state as it was before the
call; for a non-fixed field, setting a state and later restoring the returned
previous value brings a final `isFieldEnabled` query back to the initial
value (the enable / disable / re-enable round trip); for a fixed field no
call changes the registry and the warning is logged exactly when a disable is
attempted with the warn flag set; and starting from the seeded registry,
after any sequence of `enableField` calls every fixed field still queries as
enabled. -/
theorem ctags_c7_enable_field :
    (∀ (reg : List FieldObject) (t : Nat) (st w : Bool),
        (enableField reg t st w).1 = isFieldEnabled reg t)
  ∧ (∀ (reg : List FieldObject) (t : Nat) (w1 w2 w3 : Bool),
        isFieldFixed reg t = false → t < reg.length →
        isFieldEnabled
            (enableField
              ((enableField
                ((enableField reg t true w1).2.1) t false w2).2.1) t
              (enableField reg t true w1).1 w3).2.1 t
          = isFieldEnabled reg t)
  ∧ (∀ (reg : List FieldObject) (t : Nat) (st w : Bool), isFieldFixed reg t = true →
        (enableField reg t st w).2.1 = reg
          ∧ (enableField reg t st w).2.2 = (!st && w)
          ∧ isFieldEnabled (enableField reg t st w).2.1 t = isFieldEnabled reg t)
  ∧ (∀ (ops : List (Nat × Bool × Bool)) (t : Nat),
        isFieldFixed initFieldObjects t = true →
        isFieldEnabled (applyEnableOps initFieldObjects ops) t = true) := by
  refine ⟨?_, ?_, ?_, ?_⟩
  · intro reg t st w
    unfold enableField isFieldEnabled
    match h : reg.get? t with
    | none => simp
    | some fobj => by_cases hf : fobj.fixed = true <;> simp [hf]
  · intro reg t w1 w2 w3 hfix hlen
    match h : reg.get? t with
    | none =>
      exact absurd h (by simp [List.get?_eq_none]; omega)
    | some fobj =>
      have hf : fobj.fixed = false := by
        unfold isFieldFixed at hfix
        rw [h] at hfix
        simpa using hfix
      have h1 : enableField reg t true w1
          = (fobj.enabled, reg.set t { fobj with enabled := true }, false) := by
        unfold enableField
        rw [h]
        simp [hf]
      have hget1 : (reg.set t { fobj with enabled := true }).get? t
          = some { fobj with enabled := true } :=
        List.get?_set_eq_of_lt _ hlen
      have h2 : enableField (reg.set t { fobj with enabled := true }) t false w2
          = (true, (reg.set t { fobj with enabled := true }).set t
              { fobj with enabled := false }, false) := by
        unfold enableField
        rw [hget1]
        simp [hf]
      have hget2 : ((reg.set t { fobj with enabled := true }).set t
            { fobj with enabled := false }).get? t = some { fobj with enabled := false } :=
        List.get?_set_eq_of_lt _ (by simpa using hlen)
      have h3 : enableField ((reg.set t { fobj with enabled := true }).set t
            { fobj with enabled := false }) t fobj.enabled w3
          = (false, ((reg.set t { fobj with enabled := true }).set t
              { fobj with enabled := false }).set t { fobj with enabled := fobj.enabled },
             false) := by
        unfold enableField
        rw [hget2]
        simp [hf]
      rw [h1]
      simp only
      rw [h2]
      simp only
      rw [h3]
      simp only
      unfold isFieldEnabled
      rw [List.get?_set_eq_of_lt _ (by simpa using hlen), h]
  · intro reg t st w hfix
    match h : reg.get? t with
    | none =>
      unfold isFieldFixed at hfix
      rw [h] at hfix
      exact absurd hfix (by simp)
    | some fobj =>
      have hf : fobj.fixed = true := by
        unfold isFieldFixed at hfix
        rw [h] at hfix
        simpa using hfix
      unfold enableField
      rw [h]
      simp [hf]
  · intro ops t hfix
    match h : initFieldObjects.get? t with
    | none =>
      unfold isFieldFixed at hfix
      rw [h] at hfix
      exact absurd hfix (by simp)
    | some o =>
      have hf : o.fixed = true := by
        unfold isFieldFixed at hfix
        rw [h] at hfix
        simpa using hfix
      have hmem : o ∈ initFieldObjects := List.get?_mem h
      have hen : o.enabled = true := initFieldObjects_fixed_enabled o hmem hf
      have := applyEnableOps_preserves_fixed_entry ops initFieldObjects t o h hf
      unfold isFieldEnabled
      rw [this]
      simpa using hen

/-- C7, witness for `ctags_c7_enable_field`: the 'access' field (id 4,
non-fixed, initially disabled) round-trips back to disabled, and the fixed
'name' field (id 0) ignores a disable attempt, warns only when asked to, and
stays enabled after a disable attempt mixed into other calls. -/
theorem ctags_c7_enable_field_witness :
    (enableField initFieldObjects 4 true false).1 = isFieldEnabled initFieldObjects 4
  ∧ isFieldEnabled
        (enableField
          ((enableField
            ((enableField initFieldObjects 4 true false).2.1) 4 false false).2.1) 4
          (enableField initFieldObjects 4 true false).1 false).2.1 4
      = isFieldEnabled initFieldObjects 4
  ∧ (enableField initFieldObjects 0 false true).2.1 = initFieldObjects
  ∧ (enableField initFieldObjects 0 false true).2.2 = true
  ∧ isFieldEnabled
      (applyEnableOps initFieldObjects [(0, false, true), (4, true, false)]) 0 = true := by
  obtain ⟨hret, hrt, hfixed, hold⟩ := ctags_c7_enable_field
  refine ⟨hret initFieldObjects 4 true false,
    hrt initFieldObjects 4 false false false (by decide) (by decide), ?_, ?_,
    hold [(0, false, true), (4, true, false)] 0 (by decide)⟩
  · exact (hfixed initFieldObjects 0 false true (by decide)).1
  · simpa using (hfixed initFieldObjects 0 false true (by decide)).2.1

/-! ## Tag file validation (`isCtagsLine`, `isEtagsLine`, `isTagFile`,
`openTagFile`) -/

/-- `isValidTagAddress` (entry.c): the excmd is acceptable when its first
character is `'/'` or `'?'` — note `strchr ("/?", excmd [0])` also returns
non-NULL for the terminating `'\x00'` of `"/?"`, so an empty excmd is
accepted by this C quirk — or otherwise when `sscanf ("%[^;\n]")` yields a
nonempty prefix consisting entirely of decimal digits. -/
def isValidTagAddress (excmd : List Char) : Bool :=
  if excmd.headD '\x00' = '/' ∨ excmd.headD '\x00' = '?' ∨ excmd.headD '\x00' = '\x00' then
    true
  else
    let address := excmd.takeWhile (fun c => c ≠ ';' ∧ c ≠ '\n')
    !address.isEmpty && address.all (fun c => c.isDigit)

/-- `isCtagsLine` (entry.c): `sscanf (line, "%[^\t]%[\t]%[^\t]%[\t]%[^\r\n]")`
assigns five fields, each a maximal nonempty run; the line is a ctags line
when all five match, the two tab fields have length one, the tag does not
begin with `'#'`, the source file name does not end with `';'`, and the
excmd is an acceptable tag address. -/
def isCtagsLine (line : List Char) : Bool :=
  let tagF := line.takeWhile (fun c => c ≠ '\t')
  let r1 := line.drop tagF.length
  let tab1 := r1.takeWhile (fun c => c = '\t')
  let r2 := r1.drop tab1.length
  let srcFile := r2.takeWhile (fun c => c ≠ '\t')
  let r3 := r2.drop srcFile.length
  let tab2 := r3.takeWhile (fun c => c = '\t')
  let r4 := r3.drop tab2.length
  let excmd := r4.takeWhile (fun c => c ≠ '\r' ∧ c ≠ '\n')
  !tagF.isEmpty && !tab1.isEmpty && !srcFile.isEmpty && !tab2.isEmpty && !excmd.isEmpty
    && tab1.length = 1 && tab2.length = 1
    && tagF.headD '\x00' ≠ '#'
    && srcFile.getLastD '\x00' ≠ ';'
    && isValidTagAddress excmd

/-- `isEtagsLine` (entry.c): a form feed followed by a line end.  The first
line is read raw, terminators included. -/
def isEtagsLine (line : List Char) : Bool :=
  line.headD '\x00' = '\x0C'
    && ((line.drop 1).headD '\x00' = '\n' || (line.drop 1).headD '\x00' = '\r')

/-- The destination file as `openTagFile` can observe it: absent (`fopen`
fails with `ENOENT`), existing but not openable for reading (`fopen` fails
with another `errno`), or readable with a first raw line (`none` when the
file is empty and `readLineRaw` returns NULL). -/
inductive FsFile
  | absent
  | unreadable
  | readable (firstLine : Option (List Char))
  deriving Repr, DecidableEq

/-- `doesFileExist`. -/
def doesFileExist : FsFile → Bool
  | .absent => false
  | _ => true

/-- `isTagFile` (entry.c): a missing file (NULL `fp` with `errno == ENOENT`)
and an existing empty file are fine; an existing file whose open failed for
any other reason is not; otherwise the first line decides. -/
def isTagFile : FsFile → Bool
  | .absent => true
  | .unreadable => false
  | .readable none => true
  | .readable (some line) => isCtagsLine line || isEtagsLine line

/-- `openTagFile` (entry.c), named-file branch: the fatal
"doesn't look like a tag file; I refuse to overwrite it" abort fires exactly
when `fileExists && ! isTagFile (...)`. -/
def openTagFileRefuses (f : FsFile) : Bool :=
  doesFileExist f && !isTagFile f

/-- Claim C6 as stated: the abort happens exactly when the file exists, is
readable, and its nonempty first line is neither a valid ctags line nor an
etags line; a nonexistent destination or an existing but empty file is
accepted. -/
def claimRefusesC6 : FsFile → Bool
  | .absent => false
  | .unreadable => false
  | .readable none => false
  | .readable (some line) => !(isCtagsLine line || isEtagsLine line)

/-- C6, counterexample.  An existing destination that cannot be opened for
reading (`fopen` NULL with `errno != ENOENT`, e.g. a permission error) makes
`isTagFile` false, so `openTagFile` aborts, while the claim as stated only
aborts on a readable file with an invalid first line. -/
theorem ctags_c6_counterexample :
    openTagFileRefuses FsFile.unreadable = true
      ∧ claimRefusesC6 FsFile.unreadable = false := by
  decide

/-- C6 (amended): `openTagFile` aborts with the refuse-to-overwrite fatal
error exactly when the destination exists and either cannot be opened for
reading or has a nonempty first line that is neither a valid five-field
ctags line nor an etags form-feed line; a nonexistent destination and an
existing but empty file are accepted without error. -/
theorem ctags_c6_refuse_overwrite (f : FsFile) :
    openTagFileRefuses f = true
      ↔ (doesFileExist f = true
          ∧ (f = FsFile.unreadable
             ∨ ∃ line, f = FsFile.readable (some line)
                 ∧ ¬(isCtagsLine line = true ∨ isEtagsLine line = true))) := by
  cases f with
  | absent => simp [openTagFileRefuses, doesFileExist, isTagFile]
  | unreadable => simp [openTagFileRefuses, doesFileExist, isTagFile]
  | readable fl =>
    cases fl with
    | none => simp [openTagFileRefuses, doesFileExist, isTagFile]
    | some line =>
      constructor
      · intro h
        have h' := h
        simp only [openTagFileRefuses, doesFileExist, isTagFile, Bool.true_and,
          Bool.not_eq_true', Bool.or_eq_false_iff] at h'
        refine ⟨rfl, Or.inr ⟨line, rfl, ?_⟩⟩
        rintro (hc | he)
        · rw [hc] at h'
          exact absurd h'.1 (by decide)
        · rw [he] at h'
          exact absurd h'.2 (by decide)
      · rintro ⟨-, h | ⟨l, hl, hv⟩⟩
        · exact FsFile.noConfusion h
        · have hll : line = l := by
            injection hl with h1
            injection h1
          subst hll
          have hc : isCtagsLine line = false := by
            cases hx : isCtagsLine line
            · rfl
            · exact absurd (Or.inl hx) hv
          have he : isEtagsLine line = false := by
            cases hx : isEtagsLine line
            · rfl
            · exact absurd (Or.inr hx) hv
          simp [openTagFileRefuses, doesFileExist, isTagFile, hc, he]

/-! ## Append-mode pseudo-tag update (`updateSortedFlag`, `addPseudoTags`) -/

/-- `Option.sorted`. -/
inductive SortType
  | unsorted
  | sorted
  | foldsorted
  deriving Repr, DecidableEq

/-- The flag character `updateSortedFlag` writes:
`Option.sorted == SO_FOLDSORTED ? '2' : (Option.sorted == SO_SORTED ? '1' : '0')`. -/
def sortedFlagChar : SortType → Char
  | .foldsorted => '2'
  | .sorted => '1'
  | .unsorted => '0'

/-- The value `addPseudoTags` writes for the `!_TAG_FILE_SORTED` pseudo-tag:
`"2"` for foldsorted, `"1"` for sorted, `"0"` otherwise. -/
def addPseudoTagsSortedValue : SortType → String
  | .foldsorted => "2"
  | .sorted => "1"
  | .unsorted => "0"

/-- `strchr (line, c)` as an index. -/
def strchrIdx (c : Char) : List Char → Option Nat
  | [] => none
  | x :: rest => if x = c then some 0 else (strchrIdx c rest).map (fun i => i + 1)

/-- The `do c = fgetc (fp); while (c != '\t' && c != '\n');` scan: the index
and value of the first tab or newline.  `none` means the loop would read EOF
forever (unreachable when the line passed in sits in the file at the start
position). -/
def scanToTabOrNl : List Char → Option (Nat × Char)
  | [] => none
  | x :: rest =>
    if x = '\t' ∨ x = '\n' then some (0, x)
    else (scanToTabOrNl rest).map (fun r => (r.1 + 1, r.2))

/-- `updateSortedFlag` (entry.c) as a file transformer.  `line` is the
`!_TAG_FILE_SORTED` line already read from position `startOfLine` of `file`;
`sortedEnumVal` is the integer value of the `Option.sorted` enumerator (the
C compares the flag CHARACTER `d` against it with `d != (int) Option.sorted`).
The in-memory check looks at the character after the first tab of `line`;
when it is `'0'` or `'1'` the code re-reads the file from `startOfLine` up to
the first tab or newline, checks the following byte `d` again, and overwrites
that single byte with the new flag character. -/
def updateSortedFlag (sortedEnumVal : Nat) (so : SortType) (file : List Char)
    (startOfLine : Nat) (line : List Char) : List Char :=
  match strchrIdx '\t' line with
  | none => file
  | some tabIdx =>
    let boolOffset := tabIdx + 1
    if line.getD boolOffset '\x00' = '0' ∨ line.getD boolOffset '\x00' = '1' then
      match scanToTabOrNl (file.drop startOfLine) with
      | none => file
      | some jc =>
        let flagLocation := startOfLine + jc.1 + 1
        match file.get? flagLocation with
        | none => file
        | some d =>
          if jc.2 = '\t' ∧ (d = '0' ∨ d = '1') ∧ d.toNat ≠ sortedEnumVal then
            file.set flagLocation (sortedFlagChar so)
          else file
    else file

lemma strchrIdx_spec (c : Char) :
    ∀ (l : List Char) (i : Nat), strchrIdx c l = some i →
      l.get? i = some c ∧ ∀ k, k < i → l.get? k ≠ some c := by
  intro l
  induction l with
  | nil => intro i h; simp [strchrIdx] at h
  | cons x rest ih =>
    intro i h
    by_cases hx : x = c
    · rw [strchrIdx, if_pos hx] at h
      cases h
      exact ⟨by simp [hx], by omega⟩
    · rw [strchrIdx, if_neg hx] at h
      match hrest : strchrIdx c rest with
      | none => rw [hrest] at h; simp at h
      | some j =>
        rw [hrest] at h
        have hij : i = j + 1 := by simpa using h.symm
        subst hij
        obtain ⟨h1, h2⟩ := ih j hrest
        refine ⟨by simpa using h1, ?_⟩
        intro k hk
        cases k with
        | zero => simpa using hx
        | succ k' =>
          have : k' < j := by omega
          simpa using h2 k' this

lemma scanToTabOrNl_eq_some :
    ∀ (l : List Char) (j : Nat) (c : Char), l.get? j = some c → (c = '\t' ∨ c = '\n') →
      (∀ k, k < j → ∀ ch, l.get? k = some ch → ¬(ch = '\t' ∨ ch = '\n')) →
      scanToTabOrNl l = some (j, c) := by
  intro l
  induction l with
  | nil => intro j c h _ _; exact Option.noConfusion h
  | cons x rest ih =>
    intro j c h hc hmin
    cases j with
    | zero =>
      have hx : x = c := by simpa using h
      subst hx
      rw [scanToTabOrNl, if_pos hc]
    | succ j' =>
      have hx : ¬(x = '\t' ∨ x = '\n') := hmin 0 (by omega) x (by simp)
      rw [scanToTabOrNl, if_neg hx]
      have := ih j' c (by simpa using h) hc ?_
      · rw [this]
        rfl
      · intro k hk ch hch
        exact hmin (k + 1) (by omega) ch (by simpa using hch)

lemma scanToTabOrNl_of_line (file line : List Char) (startOfLine tabIdx : Nat)
    (hmatch : ∀ k, k < line.length → file.get? (startOfLine + k) = line.get? k)
    (hnl : ∀ k, k < line.length - 1 → line.get? k ≠ some '\n')
    (htab : strchrIdx '\t' line = some tabIdx) :
    scanToTabOrNl (file.drop startOfLine) = some (tabIdx, '\t') := by
  obtain ⟨hT, hMin⟩ := strchrIdx_spec '\t' line tabIdx htab
  have hlt : tabIdx < line.length := by
    by_contra hge
    rw [List.get?_eq_none.mpr (by omega)] at hT
    exact Option.noConfusion hT
  refine scanToTabOrNl_eq_some (file.drop startOfLine) tabIdx '\t' ?_ (Or.inl rfl) ?_
  · rw [List.get?_drop, hmatch tabIdx hlt]
    exact hT
  · intro k hk ch hch
    rw [List.get?_drop, hmatch k (by omega)] at hch
    rintro (h | h)
    · subst h
      exact hMin k hk hch
    · subst h
      exact hnl k (by omega) hch

lemma updateSortedFlag_reduce (v : Nat) (so : SortType) (file line : List Char)
    (s tabIdx j : Nat) (c : Char)
    (htab : strchrIdx '\t' line = some tabIdx)
    (hscan : scanToTabOrNl (file.drop s) = some (j, c)) :
    updateSortedFlag v so file s line =
      if line.getD (tabIdx + 1) '\x00' = '0' ∨ line.getD (tabIdx + 1) '\x00' = '1' then
        match file.get? (s + j + 1) with
        | none => file
        | some d =>
          if c = '\t' ∧ (d = '0' ∨ d = '1') ∧ d.toNat ≠ v then
            file.set (s + j + 1) (sortedFlagChar so)
          else file
      else file := by
  unfold updateSortedFlag
  rw [htab, hscan]

/-- C8: when the append-mode pseudo-tag walk rewrites the `!_TAG_FILE_SORTED`
line through `updateSortedFlag`, it changes at most the single flag byte
located immediately after the first tab of that line (file position
`startOfLine + tabIdx + 1`), and the byte length of the file is preserved;
every other byte of the file is unchanged.  The hypotheses say that `line`
is the text read from `file` at `startOfLine` (matching bytes, no interior
newline) with its first tab at `tabIdx`. -/
theorem ctags_c8_sorted_flag_update (sortedEnumVal : Nat) (so : SortType)
    (file line : List Char) (startOfLine tabIdx : Nat)
    (hmatch : ∀ k, k < line.length → file.get? (startOfLine + k) = line.get? k)
    (hnl : ∀ k, k < line.length - 1 → line.get? k ≠ some '\n')
    (htab : strchrIdx '\t' line = some tabIdx) :
    (updateSortedFlag sortedEnumVal so file startOfLine line).length = file.length
      ∧ ∀ i, i ≠ startOfLine + tabIdx + 1 →
          (updateSortedFlag sortedEnumVal so file startOfLine line).get? i
            = file.get? i := by
  rw [updateSortedFlag_reduce sortedEnumVal so file line startOfLine tabIdx tabIdx '\t' htab
    (scanToTabOrNl_of_line file line startOfLine tabIdx hmatch hnl htab)]
  by_cases hflag : line.getD (tabIdx + 1) '\x00' = '0' ∨ line.getD (tabIdx + 1) '\x00' = '1'
  · rw [if_pos hflag]
    cases hd : file.get? (startOfLine + tabIdx + 1) with
    | none =>
      exact ⟨rfl, fun i _ => rfl⟩
    | some d =>
      dsimp only
      by_cases hcond : (('\t' : Char) = '\t' ∧ (d = '0' ∨ d = '1') ∧ d.toNat ≠ sortedEnumVal)
      · rw [if_pos hcond]
        refine ⟨List.length_set _ _ _, ?_⟩
        intro i hi
        exact List.get?_set_ne _ _ (fun h => hi h.symm)
      · rw [if_neg hcond]
        exact ⟨rfl, fun i _ => rfl⟩
  · rw [if_neg hflag]
    exact ⟨rfl, fun i _ => rfl⟩

/-- C8, witness for `ctags_c8_sorted_flag_update` on the concrete file
`!_TAG_FILE_SORTED<tab>0<tab>/x/<newline>zz` with the header line read at
position 0: the length is preserved and every byte except position 18 (the
one after the line's first tab, at index 17) is untouched. -/
theorem ctags_c8_sorted_flag_update_witness :
    (updateSortedFlag 1 SortType.sorted
        "!_TAG_FILE_SORTED\t0\t/x/\nzz".toList 0 "!_TAG_FILE_SORTED\t0\t/x/\n".toList).length
      = "!_TAG_FILE_SORTED\t0\t/x/\nzz".toList.length
      ∧ ∀ i, i ≠ 0 + 17 + 1 →
          (updateSortedFlag 1 SortType.sorted
            "!_TAG_FILE_SORTED\t0\t/x/\nzz".toList 0
            "!_TAG_FILE_SORTED\t0\t/x/\n".toList).get? i
            = "!_TAG_FILE_SORTED\t0\t/x/\nzz".toList.get? i :=
  ctags_c8_sorted_flag_update 1 SortType.sorted
    "!_TAG_FILE_SORTED\t0\t/x/\nzz".toList "!_TAG_FILE_SORTED\t0\t/x/\n".toList 0 17
    (by decide) (by decide) (by decide)

example :
    updateSortedFlag 1 SortType.sorted "!_TAG_FILE_SORTED\t0\t/x/\nzz".toList 0
        "!_TAG_FILE_SORTED\t0\t/x/\n".toList
      = "!_TAG_FILE_SORTED\t1\t/x/\nzz".toList := by decide

/-! ## Scope resolution from the cork queue
(`getFullQualifiedScopeNameFromCorkQueue`, the classic field.c renderers) -/

/-- `valueToXDigit` (field.c). -/
def valueToXDigit (v : Nat) : Char :=
  if v ≥ 10 then Char.ofNat ('A'.toNat + (v - 10)) else Char.ofNat ('0'.toNat + v)

/-- Whether `renderEscapedString` escapes the character and
`renderEscapedName`'s scan stops at it:
`(c > 0x00 && c <= 0x1F) || c == 0x7F || c == '\\'`. -/
def needsCtagsEscape (c : Char) : Bool :=
  (0 < c.toNat && c.toNat ≤ 0x1F) || c.toNat = 0x7F || c = '\\'

/-- One character of `renderEscapedString` (classic field.c): control
characters and backslashes get a backslash, known escapes their short form,
the rest a two-digit hex form. -/
def renderEscapedChar (c : Char) : List Char :=
  if needsCtagsEscape c then
    '\\' ::
      (if c = '\x07' then ['a']
       else if c = '\x08' then ['b']
       else if c = '\t' then ['t']
       else if c = '\n' then ['n']
       else if c = '\x0B' then ['v']
       else if c = '\x0C' then ['f']
       else if c = '\r' then ['r']
       else if c = '\\' then ['\\']
       else ['x', valueToXDigit (c.toNat / 16), valueToXDigit (c.toNat % 16)])
  else [c]

/-- `renderEscapedString` (classic field.c): every character rendered through
`renderEscapedChar`. -/
def renderEscapedString : List Char → List Char
  | [] => []
  | c :: rest => renderEscapedChar c ++ renderEscapedString rest

/-- `renderEscapedName` (classic field.c): scans for the first character
needing an escape; a clean string is returned as-is, otherwise the clean
prefix is kept and the rest rendered through `renderEscapedString`. -/
def renderEscapedName (s : List Char) : List Char :=
  let pre := s.takeWhile (fun c => !needsCtagsEscape c)
  if pre.length = s.length then s
  else pre ++ renderEscapedString (s.drop pre.length)

/-- `escapeName (tag, FIELD_NAME)` (entry.c): `renderFieldEscaped` with the
FIELD_NAME descriptor renders `renderEscapedName (tag->name)`. -/
def escapeNameFieldName (tag : TagEntryInfo) : String :=
  String.mk (renderEscapedName tag.name.toList)

/-- The `while (scope) { if (!scope->placeholder) add name; scope = parent }`
walk of `getFullQualifiedScopeNameFromCorkQueue`: the chain of entries
reached from `inner` through `extensionFields.scopeIndex` links resolved by
`getEntryInCorkQueue`, inner first.  The C loop has no bound; the model burns
one unit of fuel per step, and the fuel `queue.length` passed by
`getFullQualifiedScopeNameFromCorkQueue` never runs out under the documented
invariant that a parent index is smaller than its child's
(fuel-irrelevance is part of theorem `ctags_c4_scope_resolution`). -/
def scopeEntryChain (queue : List TagEntryInfo) : Nat → Option TagEntryInfo →
    List TagEntryInfo
  | _, none => []
  | 0, some _ => []
  | fuel + 1, some sc =>
    sc :: scopeEntryChain queue fuel (getEntryInCorkQueue queue sc.extensionFields.scopeIndex)

/-- The names the walk collects (inner first): `escapeName (scope,
FIELD_NAME)` of each non-placeholder entry on the chain. -/
def scopeNameList (queue : List TagEntryInfo) (fuel : Nat) (inner : Option TagEntryInfo) :
    List String :=
  ((scopeEntryChain queue fuel inner).filter (fun e => !e.placeholder)).map
    escapeNameFieldName

/-- The final loop of `getFullQualifiedScopeNameFromCorkQueue`: pop the last
collected name first, putting `'.'` between consecutive names — the dot-join
of a list. -/
def joinDot : List String → String
  | [] => ""
  | [x] => x
  | x :: y :: rest => x ++ "." ++ joinDot (y :: rest)

/-- `getFullQualifiedScopeNameFromCorkQueue` (entry.c): collect the escaped
names of the non-placeholder entries along the parent chain of `inner`
(inner first), then join them outermost first — top-to-bottom — with `'.'`. -/
def getFullQualifiedScopeNameFromCorkQueue (queue : List TagEntryInfo)
    (inner : Option TagEntryInfo) : String :=
  joinDot (scopeNameList queue queue.length inner).reverse

/-- The scope value `addExtensionFields` prints for a tag with
`scopeIndex != SCOPE_NIL` and no explicit scope name:
`getFullQualifiedScopeNameFromCorkQueue (getEntryInCorkQueue (scopeIndex))`. -/
def addExtensionFieldsScopeValue (queue : List TagEntryInfo) (tag : TagEntryInfo) : String :=
  getFullQualifiedScopeNameFromCorkQueue queue
    (getEntryInCorkQueue queue tag.extensionFields.scopeIndex)

/-- A placeholder scope entry as a parser queues it (e.g. an anonymous
scope): placeholder set, empty name, parent the sentinel. -/
def placeholderScopeEntry : TagEntryInfo :=
  { emptyTagEntryInfo with placeholder := true, kind := ⟨'n', some "namespace"⟩ }

/-- A cork queue holding the sentinel and one placeholder scope. -/
def corkQueueC4 : List TagEntryInfo := [emptyTagEntryInfo, placeholderScopeEntry]

/-- A tag whose scope is the placeholder at cork index 1, with no explicit
scope name. -/
def childTagC4 : TagEntryInfo :=
  { emptyTagEntryInfo with
      name := "child", kind := ⟨'f', some "function"⟩,
      extensionFields := { emptyTagEntryInfo.extensionFields with scopeIndex := 1 } }

/-- A field configuration with the scope field enabled. -/
def scopeOnlyEnables : FieldEnables :=
  { kindKey := false, scopeKey := false, kindLong := false, kind := false,
    lineNumber := false, language := false, scope := true, typeRef := false,
    fileScope := false, inheritance := false, access := false,
    implementation := false, signature := false, role := false }

/-- C4, counterexample.  A flushed tag whose `scopeIndex` is 1 and whose
parent chain consists of one placeholder entry: the scope field is emitted
(the guard of `addExtensionFields` holds, the walk resolves index 1 to an
entry), yet the synthesized scope string is empty — the claim's "non-empty
scope column" fails. -/
theorem ctags_c4_counterexample :
    childTagC4.extensionFields.scopeIndex ≠ 0
      ∧ childTagC4.extensionFields.scopeName = none
      ∧ extensionFieldCond scopeOnlyEnables corkQueueC4.length childTagC4 ExtFieldTag.scope
          = true
      ∧ (getEntryInCorkQueue corkQueueC4 1).isSome = true
      ∧ addExtensionFieldsScopeValue corkQueueC4 childTagC4 = "" := by
  decide

lemma renderEscapedChar_ne_nil (c : Char) : renderEscapedChar c ≠ [] := by
  by_cases h : needsCtagsEscape c <;> simp [renderEscapedChar, h]

lemma renderEscapedString_ne_nil (s : List Char) (h : s ≠ []) :
    renderEscapedString s ≠ [] := by
  match s with
  | [] => exact absurd rfl h
  | c :: rest =>
    rw [renderEscapedString]
    intro hnil
    rw [List.append_eq_nil] at hnil
    exact renderEscapedChar_ne_nil c hnil.1

lemma renderEscapedName_ne_nil (s : List Char) (h : s ≠ []) :
    renderEscapedName s ≠ [] := by
  unfold renderEscapedName
  by_cases hall : (s.takeWhile (fun c => !needsCtagsEscape c)).length = s.length
  · rw [if_pos hall]
    exact h
  · rw [if_neg hall]
    intro hnil
    rw [List.append_eq_nil] at hnil
    have hle : (s.takeWhile (fun c => !needsCtagsEscape c)).length ≤ s.length :=
      (List.takeWhile_sublist _).length_le
    have hdrop : s.drop (s.takeWhile (fun c => !needsCtagsEscape c)).length ≠ [] := by
      intro hd
      rw [List.drop_eq_nil_iff_le] at hd
      omega
    exact renderEscapedString_ne_nil _ hdrop hnil.2

lemma escapeNameFieldName_ne_empty (e : TagEntryInfo) (h : e.name ≠ "") :
    escapeNameFieldName e ≠ "" := by
  have hl : e.name.toList ≠ [] := by
    intro hl
    exact h (String.ext hl)
  intro hmk
  have hdata : renderEscapedName e.name.toList = [] := congrArg String.data hmk
  exact renderEscapedName_ne_nil e.name.toList hl hdata

lemma joinDot_eq_empty_iff (l : List String) (h : ∀ x ∈ l, x ≠ "") :
    joinDot l = "" ↔ l = [] := by
  match l with
  | [] => simp [joinDot]
  | [x] =>
    simp only [joinDot]
    constructor
    · intro hx
      exact absurd hx (h x (by simp))
    · intro hx
      exact List.noConfusion hx
  | x :: y :: rest =>
    simp only [joinDot]
    constructor
    · intro hx
      have hlen : (x ++ "." ++ joinDot (y :: rest)).length = 0 := by
        rw [hx]
        rfl
      rw [String.length_append, String.length_append] at hlen
      have : ("." : String).length = 1 := rfl
      omega
    · intro hx
      exact List.noConfusion hx

lemma scopeEntryChain_none (queue : List TagEntryInfo) :
    ∀ fuel, scopeEntryChain queue fuel none = [] := by
  intro fuel
  cases fuel <;> rfl

lemma getEntryInCorkQueue_some_mem (queue : List TagEntryInfo) (i : Nat) :
    ∀ e, getEntryInCorkQueue queue i = some e → e ∈ queue.drop 1 := by
  intro e he
  unfold getEntryInCorkQueue at he
  by_cases hc : 0 < i ∧ i < queue.length
  · rw [if_pos hc] at he
    have hdrop : (queue.drop 1).get? (i - 1) = some e := by
      rw [List.get?_drop]
      have : 1 + (i - 1) = i := by omega
      rw [this]
      exact he
    exact List.get?_mem hdrop
  · rw [if_neg hc] at he
    exact Option.noConfusion he

lemma scopeEntryChain_mem (queue : List TagEntryInfo) :
    ∀ (fuel : Nat) (oe : Option TagEntryInfo), (∀ e, oe = some e → e ∈ queue.drop 1) →
      ∀ x ∈ scopeEntryChain queue fuel oe, x ∈ queue.drop 1 := by
  intro fuel
  induction fuel with
  | zero =>
    intro oe _ x hx
    cases oe with
    | none => simp [scopeEntryChain_none] at hx
    | some sc => simp [scopeEntryChain] at hx
  | succ f ih =>
    intro oe hoe x hx
    cases oe with
    | none => simp [scopeEntryChain_none] at hx
    | some sc =>
      rw [scopeEntryChain] at hx
      rcases List.mem_cons.mp hx with hx | hx
      · rw [hx]
        exact hoe sc rfl
      · exact ih _ (getEntryInCorkQueue_some_mem queue sc.extensionFields.scopeIndex) x hx

lemma scopeEntryChain_fuel_indep (queue : List TagEntryInfo)
    (hinv : ∀ j (h : j < queue.length),
      (queue.get ⟨j, h⟩).extensionFields.scopeIndex < j) :
    ∀ (i f1 f2 : Nat), i < f1 → i < f2 → i < queue.length →
      scopeEntryChain queue f1 (getEntryInCorkQueue queue i)
        = scopeEntryChain queue f2 (getEntryInCorkQueue queue i) := by
  intro i
  induction i using Nat.strong_induction_on with
  | _ i ih =>
    intro f1 f2 hf1 hf2 hlen
    cases i with
    | zero =>
      have h0 : getEntryInCorkQueue queue 0 = none := by
        simp [getEntryInCorkQueue]
      rw [h0, scopeEntryChain_none, scopeEntryChain_none]
    | succ i' =>
      have hc : 0 < i' + 1 ∧ i' + 1 < queue.length := ⟨Nat.succ_pos i', hlen⟩
      have hsome : getEntryInCorkQueue queue (i' + 1) = some (queue.get ⟨i' + 1, hlen⟩) := by
        unfold getEntryInCorkQueue
        rw [if_pos hc]
        exact List.get?_eq_get hlen
      obtain ⟨g1, rfl⟩ : ∃ g1, f1 = g1 + 1 := ⟨f1 - 1, by omega⟩
      obtain ⟨g2, rfl⟩ : ∃ g2, f2 = g2 + 1 := ⟨f2 - 1, by omega⟩
      rw [hsome, scopeEntryChain, scopeEntryChain]
      have hpar := hinv (i' + 1) hlen
      exact congrArg _ (ih (queue.get ⟨i' + 1, hlen⟩).extensionFields.scopeIndex hpar g1 g2
        (by omega) (by omega) (by omega))

/-- C4 (amended): at flush time, for a tag with `scopeIndex != 0` and no
explicit scope name, the scope value `addExtensionFields` emits is the
escaped names of the non-placeholder entries on the tag's parent chain
(followed through `scopeIndex` links resolved by `getEntryInCorkQueue`),
joined top-to-bottom with `'.'`; it is empty exactly when every entry on the
chain is a placeholder — in particular it is non-empty whenever the chain
holds at least one non-placeholder entry (queued non-placeholder entries have
non-empty names) — and under the documented parent-below-child invariant the
`queue.length` fuel of the model walk is irrelevant, matching the unbounded C
loop. -/
theorem ctags_c4_scope_resolution (queue : List TagEntryInfo) (tag : TagEntryInfo)
    (hname : ∀ e ∈ queue.drop 1, e.placeholder = false → e.name ≠ "")
    (hscope : tag.extensionFields.scopeIndex ≠ 0)
    (hnoname : tag.extensionFields.scopeName = none) :
    (addExtensionFieldsScopeValue queue tag
        = joinDot (((scopeEntryChain queue queue.length
              (getEntryInCorkQueue queue tag.extensionFields.scopeIndex)).filter
                (fun e => !e.placeholder)).map escapeNameFieldName).reverse)
  ∧ (addExtensionFieldsScopeValue queue tag = ""
      ↔ ∀ e ∈ scopeEntryChain queue queue.length
            (getEntryInCorkQueue queue tag.extensionFields.scopeIndex),
          e.placeholder = true)
  ∧ (∀ extra,
      (∀ j (h : j < queue.length), (queue.get ⟨j, h⟩).extensionFields.scopeIndex < j) →
      tag.extensionFields.scopeIndex < queue.length →
      scopeEntryChain queue (queue.length + extra)
          (getEntryInCorkQueue queue tag.extensionFields.scopeIndex)
        = scopeEntryChain queue queue.length
            (getEntryInCorkQueue queue tag.extensionFields.scopeIndex)) := by
  refine ⟨rfl, ?_, ?_⟩
  · have hsub : ∀ x ∈ (scopeEntryChain queue queue.length
        (getEntryInCorkQueue queue tag.extensionFields.scopeIndex)).filter
          (fun e => !e.placeholder), x ∈ queue.drop 1 := by
      intro x hx
      exact scopeEntryChain_mem queue queue.length _
        (getEntryInCorkQueue_some_mem queue tag.extensionFields.scopeIndex) x
        (List.mem_of_mem_filter hx)
    have hne : ∀ s ∈ (((scopeEntryChain queue queue.length
          (getEntryInCorkQueue queue tag.extensionFields.scopeIndex)).filter
            (fun e => !e.placeholder)).map escapeNameFieldName).reverse, s ≠ "" := by
      intro s hs
      rw [List.mem_reverse] at hs
      obtain ⟨e, he, rfl⟩ := List.mem_map.mp hs
      have heq : e.placeholder = false := by
        have := List.of_mem_filter he
        simpa using this
      exact escapeNameFieldName_ne_empty e (hname e (hsub e he) heq)
    unfold addExtensionFieldsScopeValue getFullQualifiedScopeNameFromCorkQueue scopeNameList
    rw [joinDot_eq_empty_iff _ hne]
    rw [List.reverse_eq_nil_iff, List.map_eq_nil, List.filter_eq_nil]
    constructor
    · intro h e he
      have := h e he
      simpa using this
    · intro h e he
      simp [h e he]
  · intro extra hinv hlt
    have h1 := scopeEntryChain_fuel_indep queue hinv tag.extensionFields.scopeIndex
      (queue.length + extra) queue.length (by omega) (by omega) hlt
    exact h1

/-- A non-placeholder scope entry (a class `Foo` queued at index 1). -/
def classFooEntry : TagEntryInfo :=
  { emptyTagEntryInfo with name := "Foo", kind := ⟨'c', some "class"⟩ }

/-- A cork queue holding the sentinel and the class `Foo`. -/
def corkQueueC4w : List TagEntryInfo := [emptyTagEntryInfo, classFooEntry]

/-- A method tag whose scope is the class at cork index 1. -/
def barTagC4w : TagEntryInfo :=
  { emptyTagEntryInfo with
      name := "bar", kind := ⟨'f', some "function"⟩,
      extensionFields := { emptyTagEntryInfo.extensionFields with scopeIndex := 1 } }

/-- C4, witness for `ctags_c4_scope_resolution` at a queue holding one real
scope entry `Foo`: the emitted scope value is empty iff every chain entry is
a placeholder (here it is `"Foo"`, and the chain entry is not a placeholder). -/
theorem ctags_c4_scope_resolution_witness :
    addExtensionFieldsScopeValue corkQueueC4w barTagC4w = ""
      ↔ ∀ e ∈ scopeEntryChain corkQueueC4w corkQueueC4w.length
            (getEntryInCorkQueue corkQueueC4w barTagC4w.extensionFields.scopeIndex),
          e.placeholder = true :=
  (ctags_c4_scope_resolution corkQueueC4w barTagC4w (by decide) (by decide) (by decide)).2.1

example : addExtensionFieldsScopeValue corkQueueC4w barTagC4w = "Foo" := by decide

example :
    addExtensionFieldsScopeValue
        [emptyTagEntryInfo, classFooEntry,
         { emptyTagEntryInfo with
             name := "inner"
             kind := ⟨'c', some "class"⟩
             extensionFields :=
               { emptyTagEntryInfo.extensionFields with scopeIndex := 1 } },
         { emptyTagEntryInfo with
             name := "leaf"
             extensionFields :=
               { emptyTagEntryInfo.extensionFields with scopeIndex := 2 } }]
        { emptyTagEntryInfo with
            name := "m"
            extensionFields :=
              { emptyTagEntryInfo.extensionFields with scopeIndex := 3 } }
      = "Foo.inner.leaf" := by decide

/-- C10: `updateSortedFlag` writes to the file only when the existing flag
character after the first tab of the `!_TAG_FILE_SORTED` line is `'0'` or
`'1'`; with any other flag character — for example `'2'`, exactly the value
`addPseudoTags` itself writes for `foldsorted` — the file is left entirely
unchanged. -/
theorem ctags_c10_sorted_flag_skip :
    (∀ (sortedEnumVal : Nat) (so : SortType) (file line : List Char)
        (startOfLine tabIdx : Nat),
        strchrIdx '\t' line = some tabIdx →
        line.getD (tabIdx + 1) '\x00' ≠ '0' →
        line.getD (tabIdx + 1) '\x00' ≠ '1' →
        updateSortedFlag sortedEnumVal so file startOfLine line = file)
      ∧ addPseudoTagsSortedValue SortType.foldsorted = "2" := by
  refine ⟨?_, rfl⟩
  intro sortedEnumVal so file line startOfLine tabIdx htab h0 h1
  have hne : ¬(line.getD (tabIdx + 1) '\x00' = '0' ∨ line.getD (tabIdx + 1) '\x00' = '1') := by
    rintro (h | h)
    · exact h0 h
    · exact h1 h
  unfold updateSortedFlag
  rw [htab]
  simp only [hne, if_false]

/-- C10, witness for `ctags_c10_sorted_flag_skip`: a header whose flag is the
foldsorted value `'2'` leaves the file unchanged even when re-sorting to
`sorted`. -/
theorem ctags_c10_sorted_flag_skip_witness :
    updateSortedFlag 1 SortType.sorted "!_TAG_FILE_SORTED\t2\t/x/\nzz".toList 0
        "!_TAG_FILE_SORTED\t2\t/x/\n".toList
      = "!_TAG_FILE_SORTED\t2\t/x/\nzz".toList :=
  ctags_c10_sorted_flag_skip.1 1 SortType.sorted
    "!_TAG_FILE_SORTED\t2\t/x/\nzz".toList "!_TAG_FILE_SORTED\t2\t/x/\n".toList 0 17
    (by decide) (by decide) (by decide)

end Ctags

